import Mathlib

/-!
Verification of the synthphone_vocals phase-vocoder core.

Shallow embedding of the Rust sources. Numeric model: `f32` values are
modelled as exact rationals (`ℚ`) where the relevant code uses only field
operations, comparisons and floors (config validation, ring-buffer cursors,
argmax search, the spectral-remap loop and pitch-shift smoothing), and as
real numbers (`ℝ`) where the source calls `sqrtf`, `sinf`, `cosf`, `fmodf`
with `PI` (phase wrapping, synthesis phase reconstruction, vocoding).
-/

attribute [local semireducible] Rat.inv Rat.mul Rat.add Rat.sub Rat.ofScientific

deriving instance DecidableEq for Except

namespace SynthphoneVocals

/-- Model of Rust's `as usize` cast on a finite `f32`: truncation toward
zero, saturating at 0 for negative inputs (saturation at `usize::MAX` is
irrelevant at the indices used here, which are further clamped). -/
def f32ToUsize (x : ℚ) : ℕ := (⌊x⌋).toNat

/-- Model of `libm::floorf`. -/
def floorf (x : ℚ) : ℚ := ((⌊x⌋ : ℤ) : ℚ)

/-- Model of `f32::clamp(lo, hi)`: `if self < min { min } else if self > max { max } else self`. -/
def rustClamp (x lo hi : ℚ) : ℚ := if x < lo then lo else if x > hi then hi else x

/-! ## `find_fundamental_frequency` (src/src/process_frequencies.rs lines 38-48,
identical copy in src/src/dsp/frequency_analysis.rs lines 34-44)

The Rust loop keeps a running `max_magnitude` (initialised to `0.0`) and
`fundamental_bin` (initialised to `0`), updating both when a strictly larger
magnitude is seen. -/

/-- Loop of `find_fundamental_frequency`: remaining list, current index,
running `max_magnitude`, running `fundamental_bin`. -/
def findFundamentalGo : List ℚ → ℕ → ℚ → ℕ → ℕ
  | [], _, _, best => best
  | m :: rest, i, maxMag, best =>
    if m > maxMag then findFundamentalGo rest (i + 1) m i
    else findFundamentalGo rest (i + 1) maxMag best

/-- `find_fundamental_frequency` from src/src/process_frequencies.rs. -/
def find_fundamental_frequency (analysisMagnitudes : List ℚ) : ℕ :=
  findFundamentalGo analysisMagnitudes 0 0 0

/-- Modelled from the spec: the index of the first occurrence of the maximum
magnitude of the slice (`argmax(magnitude)`, first occurrence on ties), with
0 for the empty slice. Used to compare the spec's description of
`find_fundamental_frequency` against the code's behaviour. -/
def firstArgmaxOfSpec (l : List ℚ) : ℕ :=
  match l with
  | [] => 0
  | x :: rest => List.findIdx (fun y => decide (y = rest.foldl max x)) (x :: rest)

/-! ## The Autotune spectral remap loop
(src/src/process_vocal_effects_core.rs, lines 236-266 of
`process_vocal_effects_512`; the 1024/2048/4096 entry points repeat the same
loop verbatim with `HALF_SIZE` = 512/1024/2048.)

The loop state is the pair of synthesis arrays, both zero-filled before the
loop (`synthesis_magnitudes.fill(0.0)`). They are modelled as total
functions `ℕ → ℚ`; the Rust arrays have length `2 * half` and the loop only
writes indices below `half`. -/

/-- Synthesis arrays mutated by the spectral-remap loop. -/
structure SpectralState where
  synthMags : ℕ → ℚ
  synthFreqs : ℕ → ℚ

/-- Target-bin computation of the remap loop:
`let new_bin = (floorf(new_bin_f + 0.5) as usize).min(HALF_SIZE - 1)`
with `new_bin_f = i as f32 * pitch_shift_ratio`. -/
def newBin (half : ℕ) (pitchShift : ℚ) (i : ℕ) : ℕ :=
  min (f32ToUsize (floorf ((i : ℚ) * pitchShift + 1/2))) (half - 1)

/-- Formant-shift factor: `match formant { 1 => 0.5, 2 => 2.0, _ => 1.0 }`.
In the source this is named `formant_ratio`. -/
def formantScale (formant : ℤ) : ℚ :=
  if formant = 1 then 1/2 else if formant = 2 then 2 else 1

/-- Resampled envelope (`shifted_envelope` in the source): the envelope is
read at `(i / formant_ratio).clamp(0.0, (HALF_SIZE - 1) as f32)` with linear
interpolation between adjacent entries. -/
def shiftedEnvelope (half : ℕ) (envelope : ℕ → ℚ) (formant : ℤ) (i : ℕ) : ℚ :=
  let envPos := rustClamp ((i : ℚ) / formantScale formant) 0 (((half - 1 : ℕ)) : ℚ)
  let envIdx := f32ToUsize envPos
  let frac := envPos - (envIdx : ℚ)
  if envIdx < half - 1 then envelope envIdx * (1 - frac) + envelope (envIdx + 1) * frac
  else envelope envIdx

/-- Harmonic residual of a source bin: the analysis magnitude, divided by
the (floored) envelope when formants are in use. -/
def residualOf (useFormants : Bool) (mags envelope : ℕ → ℚ) (i : ℕ) : ℚ :=
  if useFormants then mags i / max (envelope i) (1/1000000) else mags i

/-- One iteration of the remap loop at source bin `i`: skip bins with
magnitude at most `1e-8`, compute the residual and the clamped target bin,
skip if the (unreachable) `new_bin >= HALF_SIZE` guard fires, then WRITE
`residual * shifted_envelope` and `frequency * ratio` into the synthesis
arrays at the target bin (plain assignment in the source). -/
def spectralShiftStep (half : ℕ) (mags freqs : ℕ → ℚ) (pitchShift : ℚ)
    (formant : ℤ) (envelope : ℕ → ℚ) (st : SpectralState) (i : ℕ) : SpectralState :=
  if mags i ≤ 1/100000000 then st
  else
    let residual := residualOf (formant ≠ 0) mags envelope i
    let nb := newBin half pitchShift i
    if half ≤ nb then st
    else
      let sEnv := if formant ≠ 0 then shiftedEnvelope half envelope formant i else 1
      { synthMags := Function.update st.synthMags nb (residual * sEnv)
        synthFreqs := Function.update st.synthFreqs nb (freqs i * pitchShift) }

/-- The whole remap loop `for i in 0..HALF_SIZE { ... }`, starting from the
zero-filled synthesis arrays. -/
def applySpectralShift (half : ℕ) (mags freqs : ℕ → ℚ) (pitchShift : ℚ)
    (formant : ℤ) (envelope : ℕ → ℚ) : SpectralState :=
  (List.range half).foldl (spectralShiftStep half mags freqs pitchShift formant envelope)
    ⟨fun _ => 0, fun _ => 0⟩

/-- Whether iteration `i` of the remap loop writes target bin `t`: the
magnitude guard passes, the bounds guard passes, and the clamped target
is `t`. -/
def hitsBin (half : ℕ) (mags : ℕ → ℚ) (pitchShift : ℚ) (t i : ℕ) : Bool :=
  decide (1/100000000 < mags i) && decide (newBin half pitchShift i < half)
    && decide (newBin half pitchShift i = t)

/-- The last iteration in `l` (processed left to right) that writes target
bin `t`, if any. -/
def lastHit (half : ℕ) (mags : ℕ → ℚ) (pitchShift : ℚ) (t : ℕ) : List ℕ → Option ℕ
  | [] => none
  | i :: rest =>
    match lastHit half mags pitchShift t rest with
    | some j => some j
    | none => if hitsBin half mags pitchShift t i then some i else none

/-- The value `residual * shifted_envelope` that iteration `i` writes. -/
def contributionAt (half : ℕ) (mags : ℕ → ℚ) (formant : ℤ) (envelope : ℕ → ℚ) (i : ℕ) : ℚ :=
  residualOf (formant ≠ 0) mags envelope i *
    (if formant ≠ 0 then shiftedEnvelope half envelope formant i else 1)

/-! ## Configuration (src/src/config.rs) -/

/-- Processing mode (src/src/process_vocal_effects.rs). -/
inductive ProcessingMode
  | Autotune
  | Vocode
  | Dry
deriving DecidableEq

/-- Error taxonomy (src/src/error.rs). -/
inductive VocalEffectsError
  | BufferSizeMismatch
  | UnsupportedFftSize
  | InvalidConfiguration
  | ProcessingFailed
deriving DecidableEq

/-- Configuration record (src/src/config.rs). The source field `hop_ratio`
is rendered as `hopFrac` here. -/
structure VocalEffectsConfig where
  fft_size : ℕ
  hop_size : ℕ
  sample_rate : ℚ
  processing_mode : ProcessingMode
  hopFrac : ℚ
  transition_speed : ℚ
  pitch_correction_strength : ℚ
  min_frequency : ℚ
  max_frequency : ℚ
deriving DecidableEq

/-- `Default for VocalEffectsConfig`. -/
def VocalEffectsConfig.default : VocalEffectsConfig :=
  ⟨1024, 256, 48000, ProcessingMode.Autotune, 1/4, 1/10, 999/1000, 50, 4000⟩

/-- `usize::is_power_of_two` (`count_ones() == 1`). -/
def isPowerOfTwo (n : ℕ) : Bool := decide (n ≠ 0) && decide (Nat.land n (n - 1) = 0)

/-- `VocalEffectsConfig::new` (src/src/config.rs lines 46-75): four eager
validation checks, then `hop_size = (fft_size as f32 * hop_ratio) as usize`
and the remaining fields from `Default::default()`. The source literals
`0.0625` and `0.5` are the exact rationals `1/16` and `1/2`. -/
def VocalEffectsConfig.new (fft_size : ℕ) (sample_rate : ℚ) (processing_mode : ProcessingMode)
    ( hopFrac : ℚ) : Except VocalEffectsError VocalEffectsConfig :=
  if ¬ isPowerOfTwo fft_size then .error .InvalidConfiguration
  else if ¬ (512 ≤ fft_size ∧ fft_size ≤ 4096) then .error .InvalidConfiguration
  else if sample_rate ≤ 0 then .error .InvalidConfiguration
  else if ¬ (1/16 ≤ hopFrac ∧ hopFrac ≤ 1/2) then .error .InvalidConfiguration
  else .ok { VocalEffectsConfig.default with
    fft_size := fft_size
    hop_size := f32ToUsize ((fft_size : ℚ) * hopFrac)
    sample_rate := sample_rate
    processing_mode := processing_mode
    hopFrac := hopFrac }

/-- Whether config construction succeeded. -/
def configOk (r : Except VocalEffectsError VocalEffectsConfig) : Bool :=
  match r with
  | .ok _ => true
  | .error _ => false

/-- The `hop_size` of a successfully constructed config. -/
def configHopSize (r : Except VocalEffectsError VocalEffectsConfig) : Option ℕ :=
  match r with
  | .ok c => some (VocalEffectsConfig.hop_size c)
  | .error _ => none

/-! ## Ring buffer (src/src/ring_buffer.rs)

The buffer state is the storage plus the two monotonically wrapping `u32`
cursors. `u32` values are modelled as naturals kept below `2^32` by the
wrapping operations; storage indices use the source's bitmask
`idx as usize & (N - 1)`. -/

/-- `2^32`, the modulus of the `u32` cursors. -/
def u32Mod : ℕ := 4294967296

/-- `u32::wrapping_add`. -/
def wrappingAdd (a b : ℕ) : ℕ := (a + b) % u32Mod

/-- `u32::wrapping_sub` (for `b` already reduced this is `a - b` mod `2^32`). -/
def wrappingSub (a b : ℕ) : ℕ := (a + (u32Mod - b % u32Mod)) % u32Mod

/-- `RingBuffer` state: storage array (total function; the source array has
length `N` and is indexed through the mask) plus the two cursors. -/
structure RingBufferState where
  buf : ℕ → ℚ
  write : ℕ
  read : ℕ

/-- `RingBuffer::new()`: zeroed storage, both cursors 0. -/
def RingBufferState.new : RingBufferState := ⟨fun _ => 0, 0, 0⟩

/-- `RingBuffer::push`: write at `write & (N-1)`, advance `write`. -/
def rbPush (N : ℕ) (s : RingBufferState) (v : ℚ) : RingBufferState :=
  { s with
    buf := Function.update s.buf (Nat.land s.write (N - 1)) v
    write := wrappingAdd s.write 1 }

/-- `RingBuffer::pop`: read at `read & (N-1)`, zero that slot, advance
`read`; returns the value read and the next state. -/
def rbPop (N : ℕ) (s : RingBufferState) : ℚ × RingBufferState :=
  let idx := Nat.land s.read (N - 1)
  (s.buf idx,
    { s with buf := Function.update s.buf idx 0, read := wrappingAdd s.read 1 })

/-- `RingBuffer::available_samples`: `write.wrapping_sub(read)`. -/
def available_samples (s : RingBufferState) : ℕ := wrappingSub s.write s.read

/-- An element of an interleaved producer/consumer call sequence. -/
inductive RBOp
  | push (v : ℚ)
  | pop

/-- Apply one call to the buffer state. -/
def rbStep (N : ℕ) (s : RingBufferState) (op : RBOp) : RingBufferState :=
  match op with
  | .push v => rbPush N s v
  | .pop => (rbPop N s).2

/-- Run a finite interleaved call sequence. -/
def runOps (N : ℕ) (s : RingBufferState) (ops : List RBOp) : RingBufferState :=
  ops.foldl (rbStep N) s

/-- Number of pushes in a call sequence. -/
def countPush : List RBOp → ℕ
  | [] => 0
  | .push _ :: r => countPush r + 1
  | .pop :: r => countPush r

/-- Number of pops in a call sequence. -/
def countPop : List RBOp → ℕ
  | [] => 0
  | .push _ :: r => countPop r
  | .pop :: r => countPop r + 1

/-! ## Musical scale tables (src/src/frequencies.rs, src/src/audio/keys.rs)

The tables are compile-time data: 24 scales (12 major, 12 minor) of 70
frequencies each, `BASE_FREQUENCIES[idx] * 2^octave` walked along the scale
steps. All arithmetic is exact in `f32` apart from the decimal literals,
which the model takes at face value. -/

/-- `BASE_FREQUENCIES` (the 12 semitone frequencies of octave 0). -/
def BASE_FREQUENCIES : List ℚ :=
  [1635/100, 1732/100, 1835/100, 1945/100, 2060/100, 2183/100,
   2312/100, 2450/100, 2596/100, 2750/100, 2914/100, 3087/100]

/-- `MAJOR_SCALE_STEPS` (whole/half-step pattern W-W-H-W-W-W-H). -/
def MAJOR_SCALE_STEPS : List ℕ := [2, 2, 1, 2, 2, 2, 1]

/-- `MINOR_SCALE_STEPS` (W-H-W-W-H-W-W). -/
def MINOR_SCALE_STEPS : List ℕ := [2, 1, 2, 2, 1, 2, 2]

/-- Inner loop of the scale generators: the semitone indices visited when
walking the step pattern from `current`, wrapping mod 12. -/
def walkScaleIdx : List ℕ → ℕ → List ℕ
  | [], _ => []
  | s :: rest, current => current :: walkScaleIdx rest ((current + s) % 12)

/-- `generate_major_scale_frequencies` / `generate_minor_scale_frequencies`
(src/src/frequencies.rs): for each of 10 octaves, the 7 scale-degree
frequencies `BASE_FREQUENCIES[idx] * 2^octave`. -/
def generateScaleFrequencies (steps : List ℕ) (rootIndex : ℕ) : List ℚ :=
  (List.range 10).flatMap fun octave =>
    (walkScaleIdx steps rootIndex).map fun idx =>
      BASE_FREQUENCIES.getD idx 0 * 2 ^ octave

/-- The frequency tables of the 24 entries of `KEYS`
(src/src/audio/keys.rs), in the source's order: C, G, D, A, E, B, F#, C#,
F, Bb, Eb, Ab major, then A, E, B, F#, C#, G#, D, G, C, F, Bb, Eb minor. -/
def KEYS_FREQUENCIES : List (List ℚ) :=
  [generateScaleFrequencies MAJOR_SCALE_STEPS 0,
   generateScaleFrequencies MAJOR_SCALE_STEPS 7,
   generateScaleFrequencies MAJOR_SCALE_STEPS 2,
   generateScaleFrequencies MAJOR_SCALE_STEPS 9,
   generateScaleFrequencies MAJOR_SCALE_STEPS 4,
   generateScaleFrequencies MAJOR_SCALE_STEPS 11,
   generateScaleFrequencies MAJOR_SCALE_STEPS 6,
   generateScaleFrequencies MAJOR_SCALE_STEPS 1,
   generateScaleFrequencies MAJOR_SCALE_STEPS 5,
   generateScaleFrequencies MAJOR_SCALE_STEPS 10,
   generateScaleFrequencies MAJOR_SCALE_STEPS 3,
   generateScaleFrequencies MAJOR_SCALE_STEPS 8,
   generateScaleFrequencies MINOR_SCALE_STEPS 9,
   generateScaleFrequencies MINOR_SCALE_STEPS 4,
   generateScaleFrequencies MINOR_SCALE_STEPS 11,
   generateScaleFrequencies MINOR_SCALE_STEPS 6,
   generateScaleFrequencies MINOR_SCALE_STEPS 1,
   generateScaleFrequencies MINOR_SCALE_STEPS 8,
   generateScaleFrequencies MINOR_SCALE_STEPS 2,
   generateScaleFrequencies MINOR_SCALE_STEPS 7,
   generateScaleFrequencies MINOR_SCALE_STEPS 0,
   generateScaleFrequencies MINOR_SCALE_STEPS 5,
   generateScaleFrequencies MINOR_SCALE_STEPS 10,
   generateScaleFrequencies MINOR_SCALE_STEPS 3]

/-- `get_scale_by_key` (src/src/audio/keys.rs): `KEYS[key].0.1` with
fallback to `KEYS[0]` when `key as usize >= 24` (Rust's `i32 as usize`
reinterprets negative keys as huge, so they also hit the fallback). -/
def get_scale_by_key (key : ℤ) : List ℚ :=
  if 0 ≤ key ∧ key < 24 then KEYS_FREQUENCIES.getD key.toNat []
  else KEYS_FREQUENCIES.getD 0 []

/-- Musical settings (src/src/state.rs). -/
structure MusicalSettings where
  key : ℤ
  note : ℤ
  octave : ℤ
  formant : ℤ
deriving DecidableEq

/-- `get_frequency` (src/src/audio/keys.rs): with `is_vocoder = false` the
row offset is 2; octave 1/2/4 select rows 3/4/5 and any other octave flag
returns 0; the note index is `octave_idx * 7 + note - 1` (usize
arithmetic); keys outside 0..23 return 0. The Rust code panics on note
values putting the index past 70; the claims only use notes 0-9, where the
list lookup below agrees with the source. -/
def get_frequency (key note octave : ℤ) (isVocoder : Bool) : ℚ :=
  let offset : ℕ := if isVocoder then 0 else 2
  if octave = 1 ∨ octave = 2 ∨ octave = 4 then
    let octaveIdx : ℕ := (if octave = 1 then 1 else if octave = 2 then 2 else 3) + offset
    let noteIndex : ℕ := octaveIdx * 7 + note.toNat - 1
    if 0 ≤ key ∧ key < 24 then (KEYS_FREQUENCIES.getD key.toNat []).getD noteIndex 0
    else 0
  else 0

/-- Loop of `find_nearest_note_in_key` (src/src/frequencies.rs): running
minimum absolute difference and the frequency attaining it. -/
def findNearestInKeyGo (input : ℚ) : List ℚ → ℚ → ℚ → ℚ
  | [], _, nearest => nearest
  | f :: rest, minDiff, nearest =>
    if |input - f| < minDiff then findNearestInKeyGo input rest |input - f| f
    else findNearestInKeyGo input rest minDiff nearest

/-- `find_nearest_note_in_key`: starts from the first table entry and scans
the whole table. -/
def find_nearest_note_in_key (input : ℚ) (keyFrequencies : List ℚ) : ℚ :=
  findNearestInKeyGo input keyFrequencies |input - keyFrequencies.headD 0| (keyFrequencies.headD 0)

/-- Target-frequency resolution inside `calculate_pitch_shift`
(src/src/process_vocal_effects_core.rs lines 144-149): auto-snap to the
nearest note of the key when `note == 0`, direct table lookup otherwise. -/
def targetFrequency (s : MusicalSettings) (detected : ℚ) : ℚ :=
  if s.note = 0 then find_nearest_note_in_key detected (get_scale_by_key s.key)
  else get_frequency s.key s.note s.octave false

/-- `calculate_pitch_shift` (src/src/process_vocal_effects_core.rs lines
131-158). `analysis_frequencies[fundamental_index]` is modelled with a
defaulted lookup; the claims keep the index in range, where this agrees
with the source. `0.001` and `SMOOTHING_FACTOR = 0.99` are taken as the
exact rationals `1/1000` and `99/100`. -/
def calculate_pitch_shift (analysisMagnitudes analysisFrequencies : List ℚ)
    (previousPitchShift : ℚ) (s : MusicalSettings) (binWidth : ℚ) : ℚ :=
  let fundamentalIndex := find_fundamental_frequency analysisMagnitudes
  let detected := analysisFrequencies.getD fundamentalIndex 0 * binWidth
  if detected > 1/1000 then
    rustClamp (targetFrequency s detected / detected) (1/2) 2 * (99/100)
      + previousPitchShift * (1 - 99/100)
  else previousPitchShift

/-! ## Phase wrapping (src/src/process_frequencies.rs lines 142-147,
identical copy in src/src/dsp/frequency_analysis.rs lines 100-106)

`wrap_phase` is built from `libm::fmodf`, whose result has the sign of the
dividend: `fmod(a, b) = a - b * trunc(a / b)`. Exact real arithmetic models
the `f32` computation; `fmod` itself is exact in IEEE arithmetic. -/

/-- Truncation toward zero, as used by `fmod`. -/
noncomputable def rtrunc (x : ℝ) : ℤ := if 0 ≤ x then ⌊x⌋ else ⌈x⌉

/-- `libm::fmodf`: `a - b * trunc(a / b)`. -/
noncomputable def fmodf (a b : ℝ) : ℝ := a - b * ((rtrunc (a / b) : ℤ) : ℝ)

/-- `wrap_phase`: for non-negative input `fmodf(x + PI, 2 PI) - PI`, for
negative input `fmodf(x - PI, -2 PI) + PI`. -/
noncomputable def wrap_phase (x : ℝ) : ℝ :=
  if 0 ≤ x then fmodf (x + Real.pi) (2 * Real.pi) - Real.pi
  else fmodf (x - Real.pi) (-(2 * Real.pi)) + Real.pi

/-! ## Synthesis phase reconstruction
(src/src/process_vocal_effects_core.rs, lines 269-284 of
`process_vocal_effects_512`; the other per-size entry points repeat the
same loop with `HALF_SIZE` = 512/1024/2048 and `FFT_SIZE = 2 * HALF_SIZE`.)

The loop fills `full_spectrum` — initialised to all zeros — from the
synthesis arrays: bin `i < HALF_SIZE` gets `magnitude * (cos, sin)` of the
wrapped output phase, and for `i > 0` the conjugate is mirrored into bin
`FFT_SIZE - i`. It also stores the output phase back into
`last_output_phases[i]`. -/

/-- State of the synthesis loop: the complex spectrum under construction
and the `last_output_phases` array. -/
structure SynthState where
  spec : ℕ → ℝ × ℝ
  phases : ℕ → ℝ

/-- One iteration of the synthesis phase-reconstruction loop at bin `i`. -/
noncomputable def synthStep (half hop : ℕ) (mags freqs : ℕ → ℝ)
    (st : SynthState) (i : ℕ) : SynthState :=
  let magnitude := mags i
  let binDeviation := freqs i - (i : ℝ)
  let phaseIncrement := binDeviation * 2 * Real.pi * (hop : ℝ) / ((2 * half : ℕ) : ℝ)
    + 2 * Real.pi * (i : ℝ) / ((2 * half : ℕ) : ℝ) * (hop : ℝ)
  let outputPhase := wrap_phase (st.phases i + phaseIncrement)
  let realPart := magnitude * Real.cos outputPhase
  let imagPart := magnitude * Real.sin outputPhase
  let spec1 := Function.update st.spec i (realPart, imagPart)
  let spec2 :=
    if 0 < i ∧ i < half then Function.update spec1 (2 * half - i) (realPart, -imagPart)
    else spec1
  { spec := spec2, phases := Function.update st.phases i outputPhase }

/-- The whole loop `for i in 0..HALF_SIZE { ... }` over the zero-initialised
full spectrum, with `last_output_phases` as the initial phase array. -/
noncomputable def synthSpectrum (half hop : ℕ) (mags freqs lastOutputPhases : ℕ → ℝ) : SynthState :=
  (List.range half).foldl (synthStep half hop mags freqs) ⟨fun _ => (0, 0), lastOutputPhases⟩

/-- The complex value the loop computes for bin `i < half` (used to state
the characterisation of `synthSpectrum`). -/
noncomputable def synthBinValue (half hop : ℕ) (mags freqs lastOutputPhases : ℕ → ℝ)
    (i : ℕ) : ℝ × ℝ :=
  let phaseIncrement := (freqs i - (i : ℝ)) * 2 * Real.pi * (hop : ℝ) / ((2 * half : ℕ) : ℝ)
    + 2 * Real.pi * (i : ℝ) / ((2 * half : ℕ) : ℝ) * (hop : ℝ)
  let outputPhase := wrap_phase (lastOutputPhases i + phaseIncrement)
  (mags i * Real.cos outputPhase, mags i * Real.sin outputPhase)

/-! ## Vocoder bin scaling (src/src/process_vocal_effects.rs lines 370-396,
`process_vocode_generic`) -/

/-- Magnitude of one spectrum bin: `sqrtf(re * re + im * im)`. -/
noncomputable def complexMagnitude (re im : ℝ) : ℝ := Real.sqrt (re * re + im * im)

/-- The guarded scale factor: `mod_mag / car_mag` only when
`car_mag > 0.0001`, else `0.0`. -/
noncomputable def vocodeScaleFactor (modRe modIm carRe carIm : ℝ) : ℝ :=
  if complexMagnitude carRe carIm > 1/10000 then
    complexMagnitude modRe modIm / complexMagnitude carRe carIm
  else 0

/-- The output spectrum bin: the carrier bin scaled by the guarded factor
(carrier phase kept). -/
noncomputable def vocodeBin (modRe modIm carRe carIm : ℝ) : ℝ × ℝ :=
  (carRe * vocodeScaleFactor modRe modIm carRe carIm,
   carIm * vocodeScaleFactor modRe modIm carRe carIm)

/-- The conjugate bin mirrored into `full_spectrum[N - i]`. -/
noncomputable def vocodeMirrorBin (modRe modIm carRe carIm : ℝ) : ℝ × ℝ :=
  ((vocodeBin modRe modIm carRe carIm).1, -(vocodeBin modRe modIm carRe carIm).2)

/-! ## Theorems -/

/-- Helper: config construction succeeds exactly when all four validation
checks pass. -/
theorem configOk_new_iff (fft : ℕ) (rate q : ℚ) (mode : ProcessingMode) :
    configOk (VocalEffectsConfig.new fft rate mode q) = true ↔
      (isPowerOfTwo fft = true ∧ 512 ≤ fft ∧ fft ≤ 4096 ∧ 0 < rate ∧ 1/16 ≤ q ∧ q ≤ 1/2) := by
  unfold VocalEffectsConfig.new configOk
  split_ifs with h1 h2 h3 h4 <;> simp_all [not_lt, not_le]

/-- C7: config validation rejects `fft_size = 1023`, `hop_ratio = 1.5` and
`sample_rate = -1` with `InvalidConfiguration`, and accepts
`fft_size = 512`, `hop_ratio = 0.25` with a positive sample rate, producing
`hop_size = 128`. -/
theorem claim_C7 :
    VocalEffectsConfig.new 1023 48000 ProcessingMode.Autotune (1/4)
        = Except.error VocalEffectsError.InvalidConfiguration ∧
    VocalEffectsConfig.new 512 48000 ProcessingMode.Autotune (3/2)
        = Except.error VocalEffectsError.InvalidConfiguration ∧
    VocalEffectsConfig.new 512 (-1) ProcessingMode.Autotune (1/4)
        = Except.error VocalEffectsError.InvalidConfiguration ∧
    configOk (VocalEffectsConfig.new 512 48000 ProcessingMode.Autotune (1/4)) = true ∧
    configHopSize (VocalEffectsConfig.new 512 48000 ProcessingMode.Autotune (1/4)) = some 128 := by
  decide

/-- C3 counterexample: the hop ratio `1/32` lies inside the claimed
acceptance interval `(0, 1/2]`, yet `VocalEffectsConfig::new` rejects it
(the code's range check has the closed lower bound `0.0625`). -/
theorem claim_C3_counterexample :
    (0 : ℚ) < 1/32 ∧ (1/32 : ℚ) ≤ 1/2 ∧
    VocalEffectsConfig.new 512 48000 ProcessingMode.Autotune (1/32)
      = Except.error VocalEffectsError.InvalidConfiguration := by
  decide

/-- C3 (amended): with a supported power-of-two `fft_size` and a positive
sample rate, configuration construction succeeds exactly for hop ratios in
the closed interval `[1/16, 1/2]` — the four presets 1/16, 1/8, 1/4, 1/2
are all accepted — while ratios in `(0, 1/16)` are rejected as
out-of-range. -/
theorem claim_C3_amended (fft : ℕ) (rate q : ℚ) (mode : ProcessingMode)
    (hfft : fft = 512 ∨ fft = 1024 ∨ fft = 2048 ∨ fft = 4096) (hrate : 0 < rate) :
    (1/16 ≤ q → q ≤ 1/2 → configOk (VocalEffectsConfig.new fft rate mode q) = true) ∧
    (0 < q → q < 1/16 → VocalEffectsConfig.new fft rate mode q
        = Except.error VocalEffectsError.InvalidConfiguration) := by
  constructor
  · intro h1 h2
    rw [configOk_new_iff]
    refine ⟨?_, ?_, ?_, hrate, h1, h2⟩ <;> rcases hfft with rfl | rfl | rfl | rfl <;> decide
  · intro hq1 hq2
    unfold VocalEffectsConfig.new
    split_ifs with h1 h2 h3 h4 <;> try rfl
    exact absurd h4.1 (by linarith)

/-- C3 witness: the preset hop ratio 1/4 is inside `[1/16, 1/2]` and is
accepted for `fft_size = 512` at 48 kHz. -/
theorem claim_C3_witness :
    (1/16 : ℚ) ≤ 1/4 ∧ (1/4 : ℚ) ≤ 1/2 ∧
    configOk (VocalEffectsConfig.new 512 48000 ProcessingMode.Autotune (1/4)) = true :=
  ⟨by norm_num, by norm_num,
    (claim_C3_amended 512 48000 (1/4) ProcessingMode.Autotune (Or.inl rfl)
      (by norm_num)).1 (by norm_num) (by norm_num)⟩

/-- Helper: the argmax loop returns the running best unchanged when no
element beats the running maximum. -/
theorem findFundamentalGo_const (l : List ℚ) (i : ℕ) (mx : ℚ) (b : ℕ)
    (h : ∀ x ∈ l, x ≤ mx) : findFundamentalGo l i mx b = b := by
  induction l generalizing i with
  | nil => rfl
  | cons x rest ih =>
    rw [findFundamentalGo, if_neg (not_lt.mpr (h x (by simp)))]
    exact ih (i + 1) (fun y hy => h y (by simp [hy]))

/-- Helper: when some element beats the running maximum, the argmax loop
returns `i + j` where `j` is the first index of `l` attaining the maximum
of `l`. -/
theorem findFundamentalGo_max (l : List ℚ) (i : ℕ) (mx : ℚ) (b : ℕ)
    (h : ∃ x ∈ l, mx < x) :
    ∃ j, j < l.length ∧ findFundamentalGo l i mx b = i + j ∧
      mx < l.getD j 0 ∧ (∀ j' < l.length, l.getD j' 0 ≤ l.getD j 0) ∧
      (∀ j' < j, l.getD j' 0 < l.getD j 0) := by
  induction l generalizing i mx b with
  | nil => simp at h
  | cons x rest ih =>
    by_cases hx : x > mx
    · rw [findFundamentalGo, if_pos hx]
      by_cases hrest : ∃ y ∈ rest, x < y
      · obtain ⟨j, hj, heq, hgt, hmax, hfirst⟩ := ih (i + 1) x i hrest
        refine ⟨j + 1, by simpa using Nat.succ_lt_succ hj, by rw [heq]; omega, ?_, ?_, ?_⟩
        · simpa using lt_trans hx hgt
        · intro j' hj'
          cases j' with
          | zero => simpa using le_of_lt hgt
          | succ j'' => simpa using hmax j'' (by simpa using hj')
        · intro j' hj'
          cases j' with
          | zero => simpa using hgt
          | succ j'' => simpa using hfirst j'' (by omega)
      · push_neg at hrest
        rw [findFundamentalGo_const rest (i + 1) x i hrest]
        refine ⟨0, by simp, by omega, by simpa using hx, ?_, by omega⟩
        intro j' hj'
        cases j' with
        | zero => simp
        | succ j'' =>
          simp only [List.getD_cons_succ, List.getD_cons_zero]
          have hlen : j'' < rest.length := by simpa using hj'
          rw [List.getD_eq_getElem rest 0 hlen]
          exact hrest _ (List.getElem_mem hlen)
    · rw [findFundamentalGo, if_neg hx]
      have hxle : x ≤ mx := not_lt.mp hx
      have hrest : ∃ y ∈ rest, mx < y := by
        obtain ⟨y, hy, hlt⟩ := h
        rcases List.mem_cons.mp hy with rfl | hy'
        · exact absurd hlt (not_lt.mpr hxle)
        · exact ⟨y, hy', hlt⟩
      obtain ⟨j, hj, heq, hgt, hmax, hfirst⟩ := ih (i + 1) mx b hrest
      refine ⟨j + 1, by simpa using Nat.succ_lt_succ hj, by rw [heq]; omega, by simpa using hgt,
        ?_, ?_⟩
      · intro j' hj'
        cases j' with
        | zero => simpa using le_of_lt (lt_of_le_of_lt hxle hgt)
        | succ j'' => simpa using hmax j'' (by simpa using hj')
      · intro j' hj'
        cases j' with
        | zero => simpa using lt_of_le_of_lt hxle hgt
        | succ j'' => simpa using hfirst j'' (by omega)

/-- C9 counterexample: on the all-negative slice `[-5, -3]` the function
returns 0, but the first occurrence of the maximum magnitude is at index 1
(the running maximum starts at 0.0, which no negative magnitude beats). -/
theorem claim_C9_counterexample :
    find_fundamental_frequency [-5, -3] = 0 ∧ firstArgmaxOfSpec [-5, -3] = 1 ∧ (0 : ℕ) ≠ 1 := by
  decide

/-- C9 (amended): `find_fundamental_frequency` returns 0 whenever no
element is strictly positive (in particular for the empty and the all-zero
slice); when some element is positive it returns the index of the first
occurrence of the maximum (every element is at most the returned one, and
every earlier element is strictly below it). -/
theorem claim_C9_amended (mags : List ℚ) :
    ((∀ x ∈ mags, x ≤ 0) → find_fundamental_frequency mags = 0) ∧
    ((∃ x ∈ mags, 0 < x) →
      find_fundamental_frequency mags < mags.length ∧
      (∀ j < mags.length,
        mags.getD j 0 ≤ mags.getD (find_fundamental_frequency mags) 0) ∧
      (∀ j < find_fundamental_frequency mags,
        mags.getD j 0 < mags.getD (find_fundamental_frequency mags) 0)) := by
  constructor
  · intro h
    exact findFundamentalGo_const mags 0 0 0 h
  · intro h
    obtain ⟨j, hj, heq, _, hmax, hfirst⟩ := findFundamentalGo_max mags 0 0 0 h
    unfold find_fundamental_frequency
    rw [heq, Nat.zero_add]
    exact ⟨hj, hmax, hfirst⟩

/-- C9 witness: on `[0, 5, 9, 3]` some element is positive and the returned
index is in bounds. -/
theorem claim_C9_witness :
    (∃ x ∈ [(0 : ℚ), 5, 9, 3], 0 < x) ∧
    find_fundamental_frequency [(0 : ℚ), 5, 9, 3] < 4 :=
  ⟨by decide, ((claim_C9_amended [0, 5, 9, 3]).2 (by decide)).1⟩

/-- C10: in the remap loop the clamped target bin is always below
`HALF_SIZE` (so the subsequent `new_bin >= HALF_SIZE` guard is
unreachable and every write to the synthesis arrays is in bounds), a
rounded target past `HALF_SIZE - 1` lands on bin `HALF_SIZE - 1` instead
of being dropped, and an iteration never changes any array entry at or
above `HALF_SIZE`. -/
theorem claim_C10 (half : ℕ) (pitchShift : ℚ) (i : ℕ) (h : 1 ≤ half) :
    newBin half pitchShift i < half ∧
    ¬ half ≤ newBin half pitchShift i ∧
    (half - 1 < f32ToUsize (floorf ((i : ℚ) * pitchShift + 1/2)) →
      newBin half pitchShift i = half - 1) ∧
    (∀ (mags freqs envelope : ℕ → ℚ) (formant : ℤ) (st : SpectralState) (t : ℕ),
      half ≤ t →
      (spectralShiftStep half mags freqs pitchShift formant envelope st i).synthMags t
          = st.synthMags t ∧
      (spectralShiftStep half mags freqs pitchShift formant envelope st i).synthFreqs t
          = st.synthFreqs t) := by
  have h1 : newBin half pitchShift i ≤ half - 1 := min_le_right _ _
  refine ⟨by omega, by omega, fun hgt => Nat.min_eq_right (by omega), ?_⟩
  intro mags freqs envelope formant st t ht
  have hne : t ≠ newBin half pitchShift i := by omega
  unfold spectralShiftStep
  dsimp only
  split_ifs <;>
    exact ⟨by simp [Function.update_noteq hne], by simp [Function.update_noteq hne]⟩

/-- C10 witness: for `HALF_SIZE = 256` and ratio 3, source bin 100 rounds
to 300, past the top bin, and is clamped to 255. -/
theorem claim_C10_witness : 1 ≤ 256 ∧ newBin 256 3 100 = 255 :=
  ⟨by decide, (claim_C10 256 3 100 (by decide)).2.2.1 (by decide)⟩

/-- Helper: the final synthesis magnitude at target bin `t` after folding
the remap loop over any index list is the contribution of the last
iteration that writes `t`, or the initial value when none does. -/
theorem spectralShift_foldl_synthMags (half : ℕ) (mags freqs : ℕ → ℚ) (pitchShift : ℚ)
    (formant : ℤ) (envelope : ℕ → ℚ) (l : List ℕ) (st : SpectralState) (t : ℕ) :
    (l.foldl (spectralShiftStep half mags freqs pitchShift formant envelope) st).synthMags t =
      match lastHit half mags pitchShift t l with
      | some i => contributionAt half mags formant envelope i
      | none => st.synthMags t := by
  induction l generalizing st with
  | nil => rfl
  | cons i rest ih =>
    rw [List.foldl_cons, ih, lastHit]
    cases hrest : lastHit half mags pitchShift t rest with
    | some j => simp
    | none =>
      simp only
      by_cases hhit : hitsBin half mags pitchShift t i = true
      · rw [if_pos hhit]
        simp only [hitsBin, Bool.and_eq_true, decide_eq_true_eq] at hhit
        obtain ⟨⟨hmag, hnb⟩, hbt⟩ := hhit
        unfold spectralShiftStep
        dsimp only
        rw [if_neg (not_le.mpr hmag), if_neg (not_le.mpr hnb)]
        dsimp only
        rw [hbt, Function.update_same]
        rfl
      · rw [if_neg hhit]
        simp only [hitsBin, Bool.and_eq_true, decide_eq_true_eq, not_and] at hhit
        unfold spectralShiftStep
        dsimp only
        split_ifs with hm hb hf <;> try rfl
        all_goals
          exact Function.update_noteq
            (fun ht => (hhit ⟨not_le.mp hm, not_le.mp hb⟩) ht.symm) _ _

set_option maxRecDepth 100000 in
/-- C1 counterexample: for `HALF_SIZE = 256` and ratio 1/2, source bins 3
and 4 both pass the magnitude floor and both map to target bin 2, with
contributions 1 and 2; the final `synthesis_magnitudes[2]` is 2 (the
last-processed bin's contribution), not the claimed sum 3 — the write is a
plain assignment, not an accumulation. -/
theorem claim_C1_counterexample :
    (applySpectralShift 256 (fun i => if i = 3 then 1 else if i = 4 then 2 else 0)
        (fun i => (i : ℚ)) (1/2) 0 (fun _ => 1)).synthMags 2 = 2 ∧
    hitsBin 256 (fun i => if i = 3 then 1 else if i = 4 then 2 else 0) (1/2) 2 3 = true ∧
    hitsBin 256 (fun i => if i = 3 then 1 else if i = 4 then 2 else 0) (1/2) 2 4 = true ∧
    contributionAt 256 (fun i => if i = 3 then 1 else if i = 4 then 2 else 0) 0
        (fun _ => 1) 3 = 1 ∧
    contributionAt 256 (fun i => if i = 3 then 1 else if i = 4 then 2 else 0) 0
        (fun _ => 1) 4 = 2 ∧
    (2 : ℚ) ≠ 1 + 2 := by
  decide

/-- C1 (amended): in the remap loop of every per-size entry point, when
several source bins above the magnitude floor map to the same target bin,
the final `synthesis_magnitudes[target]` is the residual × resampled
envelope contribution of the LAST-processed such source bin — each write
overwrites earlier collisions — and a target bin no source maps to keeps
its zero fill. -/
theorem claim_C1_amended (half : ℕ) (mags freqs : ℕ → ℚ) (pitchShift : ℚ)
    (formant : ℤ) (envelope : ℕ → ℚ) (t : ℕ) :
    (applySpectralShift half mags freqs pitchShift formant envelope).synthMags t =
      match lastHit half mags pitchShift t (List.range half) with
      | some i => contributionAt half mags formant envelope i
      | none => 0 := by
  unfold applySpectralShift
  rw [spectralShift_foldl_synthMags]

/-- Helper: running an op sequence advances both cursors by the respective
op counts, mod `2^32`. -/
theorem runOps_cursors (N : ℕ) (ops : List RBOp) (s : RingBufferState)
    (hw : s.write < u32Mod) (hr : s.read < u32Mod) :
    (runOps N s ops).write = (s.write + countPush ops) % u32Mod ∧
    (runOps N s ops).read = (s.read + countPop ops) % u32Mod := by
  induction ops generalizing s with
  | nil =>
    simp [runOps, countPush, countPop, Nat.mod_eq_of_lt hw, Nat.mod_eq_of_lt hr]
  | cons op rest ih =>
    have hM : 0 < u32Mod := by decide
    cases op with
    | push v =>
      have step : rbStep N s (RBOp.push v) =
          { s with
            buf := Function.update s.buf (Nat.land s.write (N - 1)) v
            write := (s.write + 1) % u32Mod } := rfl
      have := ih (rbStep N s (RBOp.push v)) (by rw [step]; exact Nat.mod_lt _ hM) (by rw [step]; exact hr)
      unfold runOps at this ⊢
      rw [List.foldl_cons]
      rw [this.1, this.2, step]
      constructor
      · simp only [countPush]
        rw [Nat.mod_add_mod]
        congr 1
        omega
      · simp only [countPop]
    | pop =>
      have step : rbStep N s RBOp.pop =
          { s with
            buf := Function.update s.buf (Nat.land s.read (N - 1)) 0
            read := (s.read + 1) % u32Mod } := rfl
      have := ih (rbStep N s RBOp.pop) (by rw [step]; exact hw) (by rw [step]; exact Nat.mod_lt _ hM)
      unfold runOps at this ⊢
      rw [List.foldl_cons]
      rw [this.1, this.2, step]
      constructor
      · simp only [countPush]
      · simp only [countPop]
        rw [Nat.mod_add_mod]
        congr 1
        omega

/-- C5: starting from `RingBuffer::new()` with a power-of-two capacity,
after any finite interleaved sequence of pushes and pops,
`available_samples()` equals the number of pushes minus the number of pops
modulo `2^32` — including when more than `N` samples were pushed without
being popped. -/
theorem claim_C5 (k : ℕ) (ops : List RBOp) :
    available_samples (runOps (2 ^ k) RingBufferState.new ops) =
      (((countPush ops : ℤ) - (countPop ops : ℤ)) % ((u32Mod : ℕ) : ℤ)).toNat := by
  obtain ⟨hw, hr⟩ := runOps_cursors (2 ^ k) ops RingBufferState.new (by decide) (by decide)
  unfold available_samples wrappingSub
  rw [hw, hr]
  have hnew : RingBufferState.new.write = 0 ∧ RingBufferState.new.read = 0 := ⟨rfl, rfl⟩
  rw [hnew.1, hnew.2]
  have hM : u32Mod = 4294967296 := rfl
  rw [hM]
  omega

/-- C6 counterexample: with magnitudes `[1]`, frequencies `[1]`, bin width
`0.001` and settings key 0, note 1, octave 1, the detected frequency is
exactly `0.001` — not below the floor — so by the claim the smoothed
formula should apply; the code instead skips (its guard is
`detected > 0.001`) and returns the previous ratio 1 unchanged, which
differs from the formula value. -/
theorem claim_C6_counterexample :
    calculate_pitch_shift [1] [1] 1 ⟨0, 1, 1, 0⟩ (1/1000) = 1 ∧
    ¬ ([(1 : ℚ)].getD (find_fundamental_frequency [(1 : ℚ)]) 0 * (1/1000) < 1/1000) ∧
    (1 : ℚ) ≠ rustClamp (targetFrequency ⟨0, 1, 1, 0⟩ (1/1000) / (1/1000)) (1/2) 2 * (99/100)
        + 1 * (1 - 99/100) := by
  decide

/-- C6 (amended): whenever the detected fundamental frequency (precise
frequency of the argmax bin times the bin width) is AT OR BELOW the floor
`0.001`, correction is skipped and the previous ratio is returned
unchanged; strictly above the floor the returned ratio is
`0.99 * clamp(target/detected, 0.5, 2.0) + (1 - 0.99) * previous`. The
range hypotheses on the settings and the index keep the inputs in the
domain where the embedding agrees with the Rust code (no panics). -/
theorem claim_C6_amended (mags freqs : List ℚ) (prev : ℚ) (s : MusicalSettings)
    (binWidth : ℚ) (hk0 : 0 ≤ s.key) (hk1 : s.key < 24)
    (hn0 : 0 ≤ s.note) (hn1 : s.note ≤ 9)
    (hidx : find_fundamental_frequency mags < freqs.length) :
    (freqs.getD (find_fundamental_frequency mags) 0 * binWidth ≤ 1/1000 →
      calculate_pitch_shift mags freqs prev s binWidth = prev) ∧
    (1/1000 < freqs.getD (find_fundamental_frequency mags) 0 * binWidth →
      calculate_pitch_shift mags freqs prev s binWidth =
        (99/100) * rustClamp
            (targetFrequency s (freqs.getD (find_fundamental_frequency mags) 0 * binWidth)
              / (freqs.getD (find_fundamental_frequency mags) 0 * binWidth)) (1/2) 2
          + (1 - 99/100) * prev) := by
  constructor
  · intro h
    unfold calculate_pitch_shift
    rw [if_neg (not_lt.mpr h)]
  · intro h
    unfold calculate_pitch_shift
    rw [if_pos h]
    ring

/-- C6 witness: with magnitudes `[1]`, frequencies `[1]`, bin width 1 and
auto-snap settings (note 0), the detected frequency 1 is above the floor
and the smoothing formula applies. -/
theorem claim_C6_witness :
    (1/1000 : ℚ) < [(1 : ℚ)].getD (find_fundamental_frequency [(1 : ℚ)]) 0 * 1 ∧
    calculate_pitch_shift [1] [1] 1 ⟨0, 0, 1, 0⟩ 1 =
      (99/100) * rustClamp
          (targetFrequency ⟨0, 0, 1, 0⟩ ([(1 : ℚ)].getD (find_fundamental_frequency [(1 : ℚ)]) 0 * 1)
            / ([(1 : ℚ)].getD (find_fundamental_frequency [(1 : ℚ)]) 0 * 1)) (1/2) 2
        + (1 - 99/100) * 1 :=
  ⟨by decide,
    (claim_C6_amended [1] [1] 1 ⟨0, 0, 1, 0⟩ 1 (by decide) (by decide) (by decide) (by decide)
      (by decide)).2 (by decide)⟩

/-- Helper: for a positive modulus and non-negative dividend, `fmodf` lands
in `[0, b)`. -/
theorem fmodf_nonneg_lt (a b : ℝ) (hb : 0 < b) (ha : 0 ≤ a) :
    0 ≤ fmodf a b ∧ fmodf a b < b := by
  unfold fmodf rtrunc
  rw [if_pos (div_nonneg ha hb.le)]
  have h1 : a - b * (⌊a / b⌋ : ℝ) = b * Int.fract (a / b) := by
    rw [Int.fract, mul_sub, mul_div_cancel₀ a hb.ne']
  rw [h1]
  constructor
  · exact mul_nonneg hb.le (Int.fract_nonneg _)
  · calc b * Int.fract (a / b) < b * 1 :=
        mul_lt_mul_of_pos_left (Int.fract_lt_one _) hb
      _ = b := mul_one b

/-- Helper: for a negative modulus and negative dividend, `fmodf` lands in
`(b, 0]`. -/
theorem fmodf_neg_cases (a b : ℝ) (hb : b < 0) (ha : a < 0) :
    b < fmodf a b ∧ fmodf a b ≤ 0 := by
  unfold fmodf rtrunc
  rw [if_pos (div_nonneg_of_nonpos ha.le hb.le)]
  have h1 : a - b * (⌊a / b⌋ : ℝ) = b * Int.fract (a / b) := by
    rw [Int.fract, mul_sub, mul_div_cancel₀ a hb.ne]
  rw [h1]
  constructor
  · calc b = b * 1 := (mul_one b).symm
      _ < b * Int.fract (a / b) := by
        exact mul_lt_mul_of_neg_left (Int.fract_lt_one _) hb
  · exact mul_nonpos_of_nonpos_of_nonneg hb.le (Int.fract_nonneg _)

/-- C2 counterexample: `wrap_phase` maps `PI` itself to `-PI`
(`fmod(2 PI, 2 PI) = 0`, minus `PI`), which is not strictly greater than
`-PI`, so the range claimed in the spec — the half-open interval
`(-PI, PI]` — does not hold at this input. -/
theorem claim_C2_counterexample :
    wrap_phase Real.pi = -Real.pi ∧ ¬ (-Real.pi < wrap_phase Real.pi) := by
  have hpi := Real.pi_pos
  have key : wrap_phase Real.pi = -Real.pi := by
    unfold wrap_phase
    rw [if_pos hpi.le]
    unfold fmodf rtrunc
    have h2 : (Real.pi + Real.pi) / (2 * Real.pi) = 1 := by
      field_simp
      ring
    rw [h2, if_pos (by norm_num : (0:ℝ) ≤ 1)]
    norm_num
    ring
  exact ⟨key, by rw [key]; exact lt_irrefl _⟩

/-- C2 (amended): for every input, `wrap_phase` lands in the CLOSED
interval `[-PI, PI]`; non-negative inputs land in `[-PI, PI)` and negative
inputs land in `(-PI, PI]`. (The claimed interval `(-PI, PI]` fails only
at the left endpoint, reached for non-negative inputs such as `PI`.) -/
theorem claim_C2_amended (x : ℝ) :
    -Real.pi ≤ wrap_phase x ∧ wrap_phase x ≤ Real.pi ∧
    (0 ≤ x → wrap_phase x < Real.pi) ∧ (x < 0 → -Real.pi < wrap_phase x) := by
  have hpi := Real.pi_pos
  by_cases hx : 0 ≤ x
  · rw [wrap_phase, if_pos hx]
    obtain ⟨h0, h1⟩ := fmodf_nonneg_lt (x + Real.pi) (2 * Real.pi) (by linarith) (by linarith)
    exact ⟨by linarith, by linarith, fun _ => by linarith, fun hneg => absurd hneg (not_lt.mpr hx)⟩
  · push_neg at hx
    rw [wrap_phase, if_neg (not_le.mpr hx)]
    obtain ⟨h0, h1⟩ := fmodf_neg_cases (x - Real.pi) (-(2 * Real.pi)) (by linarith) (by linarith)
    exact ⟨by linarith, by linarith, fun hnn => absurd hx (not_lt.mpr hnn), fun _ => by linarith⟩

/-- C2 witness: the amended bounds at the concrete input 0. -/
theorem claim_C2_witness : (0 : ℝ) ≤ 0 ∧ wrap_phase 0 < Real.pi :=
  ⟨le_refl 0, (claim_C2_amended 0).2.2.1 (le_refl 0)⟩

/-- C8: in Vocode mode, for every bin whose carrier magnitude is at or
below the `0.0001` guard threshold — in particular exactly 0 — the scale
factor is 0 and the output spectrum bin (and its Hermitian mirror) is
exactly `(0, 0)`; the division `mod_mag / car_mag` is never evaluated with
a near-zero denominator. -/
theorem claim_C8 (modRe modIm carRe carIm : ℝ)
    (h : complexMagnitude carRe carIm ≤ 1/10000) :
    vocodeScaleFactor modRe modIm carRe carIm = 0 ∧
    vocodeBin modRe modIm carRe carIm = (0, 0) ∧
    vocodeMirrorBin modRe modIm carRe carIm = (0, 0) := by
  have hs : vocodeScaleFactor modRe modIm carRe carIm = 0 := by
    unfold vocodeScaleFactor
    rw [if_neg (not_lt.mpr h)]
  refine ⟨hs, ?_, ?_⟩
  · unfold vocodeBin
    rw [hs]
    norm_num
  · unfold vocodeMirrorBin vocodeBin
    rw [hs]
    norm_num

/-- C8 witness: a carrier bin that is exactly zero has magnitude 0, below
the guard, and produces the zero output bin. -/
theorem claim_C8_witness :
    complexMagnitude 0 0 ≤ 1/10000 ∧ vocodeBin 1 1 0 0 = (0, 0) := by
  have h : complexMagnitude 0 0 ≤ 1/10000 := by
    unfold complexMagnitude
    norm_num
  exact ⟨h, (claim_C8 1 1 0 0 h).2.1⟩

/-- Helper: the synthesis loop leaves `last_output_phases[j]` unchanged
when no processed bin equals `j`. -/
theorem synthFoldl_phases_untouched (half hop : ℕ) (mags freqs : ℕ → ℝ) (l : List ℕ)
    (st : SynthState) (j : ℕ) (h : ∀ i ∈ l, i ≠ j) :
    (l.foldl (synthStep half hop mags freqs) st).phases j = st.phases j := by
  induction l generalizing st with
  | nil => rfl
  | cons i rest ih =>
    rw [List.foldl_cons, ih _ (fun x hx => h x (by simp [hx]))]
    unfold synthStep
    dsimp only
    exact Function.update_noteq (fun hj => (h i (by simp)) hj.symm) _ _

/-- Helper: the synthesis loop leaves spectrum bin `j` unchanged when no
processed bin writes it directly or through the conjugate mirror. -/
theorem synthFoldl_spec_untouched (half hop : ℕ) (mags freqs : ℕ → ℝ) (l : List ℕ)
    (st : SynthState) (j : ℕ) (h : ∀ i ∈ l, i ≠ j ∧ 2 * half - i ≠ j) :
    (l.foldl (synthStep half hop mags freqs) st).spec j = st.spec j := by
  induction l generalizing st with
  | nil => rfl
  | cons i rest ih =>
    rw [List.foldl_cons, ih _ (fun x hx => h x (by simp [hx]))]
    obtain ⟨h1, h2⟩ := h i (by simp)
    unfold synthStep
    dsimp only
    by_cases hc : 0 < i ∧ i < half
    · rw [if_pos hc, Function.update_noteq (fun hj => h2 hj.symm),
        Function.update_noteq (fun hj => h1 hj.symm)]
    · rw [if_neg hc, Function.update_noteq (fun hj => h1 hj.symm)]

/-- Helper: characterisation of the constructed spectrum below `HALF_SIZE`:
bin `j < half` holds `magnitude * (cos, sin)` of the wrapped output phase
computed from the untouched `last_output_phases[j]`. -/
theorem synthSpectrum_spec_lt (half hop : ℕ) (mags freqs lastOut : ℕ → ℝ) (j : ℕ)
    (hj : j < half) :
    (synthSpectrum half hop mags freqs lastOut).spec j =
      synthBinValue half hop mags freqs lastOut j := by
  unfold synthSpectrum
  have hsplit : List.range half
      = List.range (j + 1) ++ (List.range (half - (j + 1))).map (j + 1 + ·) := by
    rw [← List.range_add]
    congr 1
    omega
  rw [hsplit, List.foldl_append]
  rw [synthFoldl_spec_untouched half hop mags freqs _ _ j ?tail]
  case tail =>
    intro i hi
    simp only [List.mem_map, List.mem_range] at hi
    obtain ⟨k, hk, rfl⟩ := hi
    omega
  rw [List.range_succ, List.foldl_append]
  simp only [List.foldl_cons, List.foldl_nil]
  set st := List.foldl (synthStep half hop mags freqs) ⟨fun _ => (0, 0), lastOut⟩
    (List.range j) with hst
  have hph : st.phases j = lastOut j := by
    rw [hst]
    exact synthFoldl_phases_untouched half hop mags freqs _ _ j
      (fun i hi => by simp only [List.mem_range] at hi; omega)
  unfold synthStep synthBinValue
  dsimp only
  rw [hph]
  by_cases h0 : 0 < j ∧ j < half
  · rw [if_pos h0, Function.update_noteq (by omega : j ≠ 2 * half - j), Function.update_same]
  · rw [if_neg h0, Function.update_same]

/-- Helper: for `0 < j < half`, the mirrored bin `2 * half - j` holds the
conjugate of the value written at bin `j`. -/
theorem synthSpectrum_spec_mirror (half hop : ℕ) (mags freqs lastOut : ℕ → ℝ) (j : ℕ)
    (h0 : 0 < j) (hj : j < half) :
    (synthSpectrum half hop mags freqs lastOut).spec (2 * half - j) =
      ((synthBinValue half hop mags freqs lastOut j).1,
       -(synthBinValue half hop mags freqs lastOut j).2) := by
  unfold synthSpectrum
  have hsplit : List.range half
      = List.range (j + 1) ++ (List.range (half - (j + 1))).map (j + 1 + ·) := by
    rw [← List.range_add]
    congr 1
    omega
  rw [hsplit, List.foldl_append]
  rw [synthFoldl_spec_untouched half hop mags freqs _ _ (2 * half - j) ?tail]
  case tail =>
    intro i hi
    simp only [List.mem_map, List.mem_range] at hi
    obtain ⟨k, hk, rfl⟩ := hi
    omega
  rw [List.range_succ, List.foldl_append]
  simp only [List.foldl_cons, List.foldl_nil]
  set st := List.foldl (synthStep half hop mags freqs) ⟨fun _ => (0, 0), lastOut⟩
    (List.range j) with hst
  have hph : st.phases j = lastOut j := by
    rw [hst]
    exact synthFoldl_phases_untouched half hop mags freqs _ _ j
      (fun i hi => by simp only [List.mem_range] at hi; omega)
  unfold synthStep synthBinValue
  dsimp only
  rw [hph, if_pos (And.intro h0 hj), Function.update_same]

/-- Helper: the Nyquist bin `half` (index `N/2` of the full spectrum) is
never written by the loop and keeps its zero initialisation. -/
theorem synthSpectrum_spec_half (half hop : ℕ) (mags freqs lastOut : ℕ → ℝ) :
    (synthSpectrum half hop mags freqs lastOut).spec half = (0, 0) := by
  unfold synthSpectrum
  rw [synthFoldl_spec_untouched half hop mags freqs _ _ half
    (fun i hi => by simp only [List.mem_range] at hi; omega)]

/-- C4 counterexample: in the 512-point synthesis loop (`HALF_SIZE = 256`,
`hop_size = 128`) with unit synthesis magnitude, synthesis frequency 1 and
zero stored phase at bin 0, the DC bin of the constructed spectrum is
`(cos(PI/2), sin(PI/2))`, whose imaginary part is 1, not 0: the per-size
entry points do not force the DC bin real. -/
theorem claim_C4_counterexample :
    ((synthSpectrum 256 128 (fun _ => 1) (fun _ => 1) (fun _ => 0)).spec 0).2 = 1 ∧
    (1 : ℝ) ≠ 0 := by
  refine ⟨?_, one_ne_zero⟩
  rw [synthSpectrum_spec_lt 256 128 (fun _ => 1) (fun _ => 1) (fun _ => 0) 0 (by norm_num)]
  unfold synthBinValue
  dsimp only
  have harg : (0 : ℝ) + (((1 : ℝ) - ((0 : ℕ) : ℝ)) * 2 * Real.pi * ((128 : ℕ) : ℝ)
        / (((2 * 256 : ℕ)) : ℝ)
      + 2 * Real.pi * ((0 : ℕ) : ℝ) / (((2 * 256 : ℕ)) : ℝ) * ((128 : ℕ) : ℝ))
      = Real.pi / 2 := by
    push_cast
    ring
  rw [harg]
  have hwrap : wrap_phase (Real.pi / 2) = Real.pi / 2 := by
    have hpi := Real.pi_pos
    unfold wrap_phase
    rw [if_pos (by positivity)]
    unfold fmodf rtrunc
    have h2 : (Real.pi / 2 + Real.pi) / (2 * Real.pi) = 3 / 4 := by
      field_simp
      ring
    rw [h2, if_pos (by norm_num : (0 : ℝ) ≤ 3 / 4)]
    have h3 : ⌊(3 / 4 : ℝ)⌋ = 0 := by
      rw [Int.floor_eq_zero_iff]
      constructor <;> norm_num
    rw [h3]
    push_cast
    ring
  rw [hwrap, Real.sin_pi_div_two, mul_one]

/-- C4 (amended): immediately before the inverse transform, the spectrum
constructed by the synthesis loop of every per-size entry point satisfies:
for every bin `0 < i < N/2`, bin `N - i` is the complex conjugate of bin
`i`, and the Nyquist bin `N/2` is `(0, 0)` (purely real). The DC bin,
however, is `magnitude * (cos, sin)` of its output phase and is NOT forced
real (that part of the claim fails, see the counterexample). -/
theorem claim_C4_amended (half hop : ℕ) (mags freqs lastOut : ℕ → ℝ) :
    (∀ i, 0 < i → i < half →
      (synthSpectrum half hop mags freqs lastOut).spec (2 * half - i) =
        (((synthSpectrum half hop mags freqs lastOut).spec i).1,
         -((synthSpectrum half hop mags freqs lastOut).spec i).2)) ∧
    (synthSpectrum half hop mags freqs lastOut).spec half = (0, 0) := by
  constructor
  · intro i h0 hi
    rw [synthSpectrum_spec_mirror half hop mags freqs lastOut i h0 hi,
      synthSpectrum_spec_lt half hop mags freqs lastOut i hi]
  · exact synthSpectrum_spec_half half hop mags freqs lastOut

/-- C4 witness: Hermitian mirror and zero Nyquist bin at `HALF_SIZE = 2`,
`hop = 1`, bin 1. -/
theorem claim_C4_witness :
    (synthSpectrum 2 1 (fun _ => 1) (fun _ => 1) (fun _ => 0)).spec 3 =
      (((synthSpectrum 2 1 (fun _ => 1) (fun _ => 1) (fun _ => 0)).spec 1).1,
       -((synthSpectrum 2 1 (fun _ => 1) (fun _ => 1) (fun _ => 0)).spec 1).2) ∧
    (synthSpectrum 2 1 (fun _ => 1) (fun _ => 1) (fun _ => 0)).spec 2 = (0, 0) :=
  ⟨(claim_C4_amended 2 1 (fun _ => 1) (fun _ => 1) (fun _ => 0)).1 1 (by norm_num) (by norm_num),
   (claim_C4_amended 2 1 (fun _ => 1) (fun _ => 1) (fun _ => 0)).2⟩

end SynthphoneVocals
